import Mathlib

/-!
Verification of the file-storage and access-control subsystem.

The relational data model (tables `files` and `file_permissions`, their
constraints, foreign keys with cascade, and the row-level-security
policies) is translated from the repository's SQL schema
(src/unnamed/part_001, lines 208-288).  The orchestration layer
(storage manager and API endpoints) is not part of the source tree, so
those operations are modelled from the specification, as marked in
their doc comments.
-/

/-- The access levels of the `access_level CHECK (access_level IN ('read',
'write', 'owner'))` column constraint in the `file_permissions` table. -/
inductive AccessLevel where
  | read
  | write
  | owner
deriving DecidableEq, Repr

/-- Parse an access-level string as the schema's CHECK constraint admits it;
any other string is rejected (`InvalidArgument` at the boundary). -/
def parseLevel : String → Option AccessLevel
  | "read" => some AccessLevel.read
  | "write" => some AccessLevel.write
  | "owner" => some AccessLevel.owner
  | _ => none

/-- Numeric rank of an effective level under the total ordering
`owner > write > read > none`; `none` (no record) is the bottom. -/
def rank : Option AccessLevel → Nat
  | none => 0
  | some AccessLevel.read => 1
  | some AccessLevel.write => 2
  | some AccessLevel.owner => 3

/-- A row of the `files` table: id, owning user id, filename, bucket-relative
path, declared size, content type, and the two timestamps. -/
structure FileRecord where
  id : Nat
  user_id : Nat
  filename : String
  filepath : String
  file_size : Int
  content_type : String
  created_at : Nat
  updated_at : Nat
deriving DecidableEq, Repr

/-- A row of the `file_permissions` table: the composite key
`UNIQUE(file_id, user_id)`, the access level, the nullable granting user
(`granted_by UUID REFERENCES auth.users(id)`), and the creation time. -/
structure PermRecord where
  file_id : Nat
  user_id : Nat
  access_level : AccessLevel
  granted_by : Option Nat
  created_at : Nat
deriving DecidableEq, Repr

/-- The metadata repository state: the `auth.users` ids, the `files` rows,
the `file_permissions` rows, and a fresh-id counter standing in for
`gen_random_uuid()`. -/
structure DBState where
  users : List Nat
  files : List FileRecord
  perms : List PermRecord
  nextId : Nat
deriving DecidableEq, Repr

/-- Repository-level error taxonomy. -/
inductive RepoError where
  | notFound
  | conflict
  | invalidArgument
deriving DecidableEq, Repr

/-- API-level error taxonomy (section 7 of the spec); `forbidden` is kept
distinct from `notFound` only where it does not leak existence. -/
inductive ApiError where
  | notFound
  | forbidden
  | conflict
  | invalidArgument
  | upstreamUnavailable
deriving DecidableEq, Repr

/-- `getFile(fileId) -> FileRecord | NotFound`: lookup in the `files` table
by primary key. -/
def getFile (s : DBState) (fileId : Nat) : Option FileRecord :=
  s.files.find? (fun f => f.id == fileId)

/-- `getPermission(fileId, userId) -> level | None`: lookup in
`file_permissions` by the composite key `(file_id, user_id)`. -/
def getPermission (s : DBState) (fileId userId : Nat) : Option AccessLevel :=
  (s.perms.find? (fun p => p.file_id == fileId && p.user_id == userId)).map
    (fun p => p.access_level)

/-- Modelled from the spec: `effectiveLevel(userId, fileId) -> level` of the
Access Control Engine (section 4.2) queries the repository and returns
`none` if no record exists. -/
def effectiveLevel (s : DBState) (userId fileId : Nat) : Option AccessLevel :=
  getPermission s fileId userId

/-- Modelled from the spec: `authorize(userId, fileId, requiredLevel)` of the
Access Control Engine is true iff the effective level reaches the required
level under the ordering `owner > write > read > none`. -/
def authorize (s : DBState) (userId fileId : Nat) (required : AccessLevel) : Bool :=
  decide (rank (some required) ≤ rank (effectiveLevel s userId fileId))

/-- Translated from the row-level-security policy `"File owners can manage
permissions"`: the caller may create, change or revoke permission records of
a file iff the caller holds an `owner`-level record on that file; the target
level plays no role. -/
def authorizeGrant (s : DBState) (granterId fileId : Nat)
    (_targetLevel : AccessLevel) : Bool :=
  s.perms.any (fun q =>
    q.file_id == fileId && q.user_id == granterId &&
      q.access_level == AccessLevel.owner)

/-- Translated from the row-level-security policy `"Users can view
permissions for files they have access to"`: a permission row is visible to
the caller iff the caller is its grantee, or the caller holds an `owner` or
`write` record on the same file. -/
def canViewPermission (s : DBState) (uid : Nat) (p : PermRecord) : Bool :=
  p.user_id == uid ||
    s.perms.any (fun q =>
      q.file_id == p.file_id && q.user_id == uid &&
        (q.access_level == AccessLevel.owner ||
          q.access_level == AccessLevel.write))

/-- Modelled from the spec: `createFile(ownerId, filename, path, size,
contentType)` (section 4.1) atomically inserts the file row and the implicit
self-grant `owner` permission row (`granted_by` null); it fails with
`Conflict` when the path already exists and respects the `user_id` foreign
key into `auth.users`. -/
def createFile (s : DBState) (ownerId : Nat) (filename filepath : String)
    (size : Int) (ctype : String) (now : Nat) :
    Except RepoError FileRecord × DBState :=
  if !(s.users.contains ownerId) then (Except.error RepoError.notFound, s)
  else if s.files.any (fun f => f.filepath == filepath) then
    (Except.error RepoError.conflict, s)
  else
    let f : FileRecord :=
      { id := s.nextId, user_id := ownerId, filename := filename,
        filepath := filepath, file_size := size, content_type := ctype,
        created_at := now, updated_at := now }
    let p : PermRecord :=
      { file_id := s.nextId, user_id := ownerId,
        access_level := AccessLevel.owner, granted_by := none,
        created_at := now }
    (Except.ok f,
      { s with files := f :: s.files, perms := p :: s.perms,
               nextId := s.nextId + 1 })

/-- Modelled from the spec: `upsertPermission(fileId, granteeId, level,
grantedBy)` (section 4.1) fails with `InvalidArgument` when the level string
is outside the enumerated set, with `NotFound` when the file or the grantee
does not exist (foreign keys), and with `Conflict` when it would demote the
sole `owner`; otherwise it replaces the record with key `(fileId, granteeId)`
or, absent one, inserts it (the schema's `UNIQUE(file_id, user_id)`). -/
def upsertPermission (s : DBState) (fileId granteeId : Nat) (level : String)
    (grantedBy : Option Nat) (now : Nat) : Except RepoError Unit × DBState :=
  match parseLevel level with
  | none => (Except.error RepoError.invalidArgument, s)
  | some lvl =>
    if !(s.users.contains granteeId) then (Except.error RepoError.notFound, s)
    else if grantedBy.any (fun g => !(s.users.contains g)) then
      (Except.error RepoError.notFound, s)
    else
      match getFile s fileId with
      | none => (Except.error RepoError.notFound, s)
      | some _ =>
        match getPermission s fileId granteeId with
        | some cur =>
          if cur == AccessLevel.owner && lvl != AccessLevel.owner &&
              !(s.perms.any (fun q =>
                q.file_id == fileId && q.user_id != granteeId &&
                  q.access_level == AccessLevel.owner)) then
            (Except.error RepoError.conflict, s)
          else
            (Except.ok (),
              { s with perms := s.perms.map (fun p =>
                  if p.file_id == fileId && p.user_id == granteeId then
                    { p with access_level := lvl, granted_by := grantedBy }
                  else p) })
        | none =>
          (Except.ok (),
            { s with perms :=
                { file_id := fileId, user_id := granteeId,
                  access_level := lvl, granted_by := grantedBy,
                  created_at := now } :: s.perms })

/-- Modelled from the spec: revoking a permission record (sections 4.1 and
4.4) removes the `(fileId, granteeId)` row; it fails with `NotFound` when no
such row exists and with `Conflict` when the row is the sole `owner` record
of the file. -/
def revokePermission (s : DBState) (fileId granteeId : Nat) :
    Except RepoError Unit × DBState :=
  match getPermission s fileId granteeId with
  | none => (Except.error RepoError.notFound, s)
  | some lvl =>
    if lvl == AccessLevel.owner &&
        !(s.perms.any (fun q =>
          q.file_id == fileId && q.user_id != granteeId &&
            q.access_level == AccessLevel.owner)) then
      (Except.error RepoError.conflict, s)
    else
      (Except.ok (),
        { s with perms := s.perms.filter (fun p =>
            !(p.file_id == fileId && p.user_id == granteeId)) })

/-- `deleteFile(fileId)` of the repository: fails with `NotFound` when the
file is absent, and otherwise removes the file row; the
`file_id UUID NOT NULL REFERENCES files(id) ON DELETE CASCADE` constraint
removes every permission row carrying that file id with it. -/
def deleteFileRepo (s : DBState) (fileId : Nat) :
    Except RepoError Unit × DBState :=
  match getFile s fileId with
  | none => (Except.error RepoError.notFound, s)
  | some _ =>
    (Except.ok (),
      { s with files := s.files.filter (fun f => !(f.id == fileId)),
               perms := s.perms.filter (fun p => !(p.file_id == fileId)) })

/-- Deleting an `auth.users` row under the schema's foreign keys: the
`ON DELETE CASCADE` on `files.user_id` removes every file owned by the user
(and, transitively through `file_permissions.file_id`, their permission
rows); the `ON DELETE CASCADE` on `file_permissions.user_id` removes every
permission row whose grantee is the user; the `granted_by` reference has no
cascade action, so a deletion that would leave a surviving row pointing at
the removed user is rejected. -/
def deleteUser (s : DBState) (userId : Nat) : Except RepoError Unit × DBState :=
  if !(s.users.contains userId) then (Except.error RepoError.notFound, s)
  else if (s.perms.filter (fun p =>
      !(p.user_id == userId) &&
        !(s.files.any (fun f => f.id == p.file_id && f.user_id == userId)))).any
        (fun p => p.granted_by == some userId) then
    (Except.error RepoError.conflict, s)
  else
    (Except.ok (),
      { s with users := s.users.filter (fun u => !(u == userId)),
               files := s.files.filter (fun f => !(f.user_id == userId)),
               perms := s.perms.filter (fun p =>
                 !(p.user_id == userId) &&
                   !(s.files.any (fun f =>
                     f.id == p.file_id && f.user_id == userId))) })

/-- Modelled from the spec: `listAccessibleFiles(userId)` (section 4.1)
returns every file for which the user holds any permission record, annotated
with the effective level, ordered by creation time descending. -/
def listAccessibleFiles (s : DBState) (userId : Nat) :
    List (FileRecord × AccessLevel) :=
  (s.files.filterMap (fun f =>
    (getPermission s f.id userId).map (fun l => (f, l)))).insertionSort
      (fun a b => b.1.created_at ≤ a.1.created_at)

/-- Modelled from the spec: the upload orchestration (section 4.4) validates
the inputs, writes the object first (`objectWriteOk` stands for the outcome
of the external object-store write), and only on success creates the
metadata record; when the object write fails it aborts with no metadata side
effects, and when the metadata write fails after a successful object write
it leaves the repository unchanged and compensates externally. -/
def uploadFile (s : DBState) (callerId : Nat) (filename filepath : String)
    (size : Int) (ctype : String) (objectWriteOk : Bool) (now : Nat) :
    Except ApiError FileRecord × DBState :=
  if filename == "" then (Except.error ApiError.invalidArgument, s)
  else if size ≤ 0 then (Except.error ApiError.invalidArgument, s)
  else if !objectWriteOk then (Except.error ApiError.upstreamUnavailable, s)
  else
    match createFile s callerId filename filepath size ctype now with
    | (Except.ok f, s') => (Except.ok f, s')
    | (Except.error RepoError.conflict, _) => (Except.error ApiError.conflict, s)
    | (Except.error _, _) => (Except.error ApiError.upstreamUnavailable, s)

/-- Modelled from the spec: the get-file-details endpoint (section 6): a
truly absent file and a file the caller holds no permission record on both
yield the same `NotFound`-shaped rejection, to avoid existence leakage. -/
def getFileDetails (s : DBState) (callerId fileId : Nat) :
    Except ApiError FileRecord :=
  match getFile s fileId with
  | none => Except.error ApiError.notFound
  | some f =>
    if authorize s callerId fileId AccessLevel.read then Except.ok f
    else Except.error ApiError.notFound

/-- Modelled from the spec: the check-access endpoint (section 6) reports the
caller's effective level; like the details endpoint it answers `NotFound`
both for an absent file and for a file the caller holds no record on. -/
def accessLevelService (s : DBState) (callerId fileId : Nat) :
    Except ApiError AccessLevel :=
  match getFile s fileId with
  | none => Except.error ApiError.notFound
  | some _ =>
    match effectiveLevel s callerId fileId with
    | none => Except.error ApiError.notFound
    | some l => Except.ok l

/-- Outcome of the delete orchestration: the caller-visible result, the
metadata repository state, and whether an orphaned-object anomaly was
logged for operational tooling. -/
structure DeleteOutcome where
  result : Except ApiError Unit
  state : DBState
  anomaly : Bool
deriving Repr

/-- Modelled from the spec: the delete orchestration (section 4.4) requires
`owner`; an invisible file answers the same `NotFound` an absent file does,
a visible non-owned file answers `Forbidden`; the metadata record is deleted
first (cascading the permission rows), then the object (`objectDeleteOk`);
an object-deletion failure is logged as an anomaly, never surfaced as a
failure of the call. -/
def deleteFileService (s : DBState) (callerId fileId : Nat)
    (objectDeleteOk : Bool) : DeleteOutcome :=
  match getFile s fileId with
  | none => ⟨Except.error ApiError.notFound, s, false⟩
  | some _ =>
    if !(authorize s callerId fileId AccessLevel.read) then
      ⟨Except.error ApiError.notFound, s, false⟩
    else if !(authorize s callerId fileId AccessLevel.owner) then
      ⟨Except.error ApiError.forbidden, s, false⟩
    else
      match deleteFileRepo s fileId with
      | (Except.ok _, s') => ⟨Except.ok (), s', !objectDeleteOk⟩
      | (Except.error _, _) => ⟨Except.error ApiError.upstreamUnavailable, s, false⟩

/-- Modelled from the spec: the grant-access endpoint (sections 4.4 and 6):
`authorizeGrant` must pass (an invisible file answers `NotFound`, a visible
one without the owner grant answers `Forbidden`) before the repository
upsert runs. -/
def grantAccess (s : DBState) (callerId fileId targetUserId : Nat)
    (level : String) (now : Nat) : Except ApiError Unit × DBState :=
  match getFile s fileId with
  | none => (Except.error ApiError.notFound, s)
  | some _ =>
    match parseLevel level with
    | none => (Except.error ApiError.invalidArgument, s)
    | some lvl =>
      if !(authorize s callerId fileId AccessLevel.read) then
        (Except.error ApiError.notFound, s)
      else if !(authorizeGrant s callerId fileId lvl) then
        (Except.error ApiError.forbidden, s)
      else
        match upsertPermission s fileId targetUserId level (some callerId) now with
        | (Except.ok _, s') => (Except.ok (), s')
        | (Except.error RepoError.conflict, s') => (Except.error ApiError.conflict, s')
        | (Except.error RepoError.invalidArgument, s') =>
          (Except.error ApiError.invalidArgument, s')
        | (Except.error RepoError.notFound, s') => (Except.error ApiError.notFound, s')

/-- Modelled from the spec: the revoke-access path (sections 4.4 and 6),
with the same authorization discipline as granting. -/
def revokeAccess (s : DBState) (callerId fileId targetUserId : Nat) :
    Except ApiError Unit × DBState :=
  match getFile s fileId with
  | none => (Except.error ApiError.notFound, s)
  | some _ =>
    if !(authorize s callerId fileId AccessLevel.read) then
      (Except.error ApiError.notFound, s)
    else if !(authorizeGrant s callerId fileId AccessLevel.read) then
      (Except.error ApiError.forbidden, s)
    else
      match revokePermission s fileId targetUserId with
      | (Except.ok _, s') => (Except.ok (), s')
      | (Except.error RepoError.conflict, s') => (Except.error ApiError.conflict, s')
      | (Except.error RepoError.invalidArgument, s') =>
        (Except.error ApiError.invalidArgument, s')
      | (Except.error RepoError.notFound, s') => (Except.error ApiError.notFound, s')

/-- One repository-level mutation of the permission system: file creation,
grant (upsert), revoke, or file deletion. -/
inductive Op where
  | create (ownerId : Nat) (filename filepath : String) (size : Int)
      (ctype : String) (now : Nat)
  | grant (fileId granteeId : Nat) (level : String) (grantedBy : Option Nat)
      (now : Nat)
  | revoke (fileId granteeId : Nat)
  | delete (fileId : Nat)
deriving Repr

/-- Apply one operation; a failing operation leaves the state as it was. -/
def applyOp (s : DBState) : Op → DBState
  | Op.create o fn fp sz ct now => (createFile s o fn fp sz ct now).2
  | Op.grant f g l gb now => (upsertPermission s f g l gb now).2
  | Op.revoke f g => (revokePermission s f g).2
  | Op.delete f => (deleteFileRepo s f).2

/-- Run a sequence of operations from a starting state. -/
def runOps (s : DBState) : List Op → DBState
  | [] => s
  | op :: rest => runOps (applyOp s op) rest

/-- The `files` primary key: no two file rows share an id. -/
def uniqueFileIds (s : DBState) : Prop :=
  s.files.Pairwise (fun a b => a.id ≠ b.id)

/-- The schema's `UNIQUE(file_id, user_id)` constraint: no two permission
rows share the composite key. -/
def uniqueKeys (s : DBState) : Prop :=
  s.perms.Pairwise (fun a b => a.file_id ≠ b.file_id ∨ a.user_id ≠ b.user_id)

/-- The `file_id REFERENCES files(id)` foreign key: every permission row
points at an existing file row. -/
def permsHaveFile (s : DBState) : Prop :=
  ∀ p ∈ s.perms, ∃ f ∈ s.files, f.id = p.file_id

/-- Every existing file has at least one `owner`-level permission record. -/
def atLeastOneOwner (s : DBState) : Prop :=
  ∀ f ∈ s.files, ∃ p ∈ s.perms,
    p.file_id = f.id ∧ p.access_level = AccessLevel.owner

/-- Every existing file has exactly one `owner`-level permission record. -/
def exactlyOneOwner (s : DBState) : Prop :=
  ∀ f ∈ s.files,
    (s.perms.filter (fun p =>
      p.file_id == f.id && p.access_level == AccessLevel.owner)).length = 1

/-- All ids handed out so far lie below the fresh-id counter. -/
def idsFresh (s : DBState) : Prop :=
  (∀ f ∈ s.files, f.id < s.nextId) ∧ (∀ p ∈ s.perms, p.file_id < s.nextId)

/-- The repository's healthy-state invariant: both key constraints, the
file-reference foreign key, owner existence, and counter freshness. -/
def RepoInv (s : DBState) : Prop :=
  uniqueFileIds s ∧ uniqueKeys s ∧ permsHaveFile s ∧ atLeastOneOwner s ∧
    idsFresh s

theorem find?_key_unique {l : List PermRecord} {p : PermRecord} {f u : Nat}
    (hu : l.Pairwise (fun a b => a.file_id ≠ b.file_id ∨ a.user_id ≠ b.user_id))
    (hp : p ∈ l) (hf : p.file_id = f) (hus : p.user_id = u) :
    l.find? (fun q => q.file_id == f && q.user_id == u) = some p := by
  induction l with
  | nil => cases hp
  | cons a t ih =>
    rw [List.pairwise_cons] at hu
    rcases List.mem_cons.mp hp with rfl | hpt
    · rw [List.find?_cons_of_pos]
      simp [hf, hus]
    · by_cases ha : (a.file_id == f && a.user_id == u) = true
      · exfalso
        simp only [Bool.and_eq_true, beq_iff_eq] at ha
        rcases hu.1 p hpt with h1 | h2
        · exact h1 (ha.1.trans hf.symm)
        · exact h2 (ha.2.trans hus.symm)
      · have hstep : List.find? (fun q => q.file_id == f && q.user_id == u)
            (a :: t) = List.find? (fun q => q.file_id == f && q.user_id == u) t :=
          List.find?_cons_of_neg t ha
        rw [hstep]
        exact ih hu.2 hpt

theorem getPermission_of_mem {s : DBState} {p : PermRecord} {f u : Nat}
    (hu : uniqueKeys s) (hp : p ∈ s.perms) (hf : p.file_id = f)
    (hus : p.user_id = u) : getPermission s f u = some p.access_level := by
  unfold getPermission
  rw [find?_key_unique hu hp hf hus, Option.map_some']

theorem getPermission_eq_none {s : DBState} {f u : Nat} :
    getPermission s f u = none ↔
      ∀ p ∈ s.perms, ¬(p.file_id = f ∧ p.user_id = u) := by
  unfold getPermission
  rw [Option.map_eq_none', List.find?_eq_none]
  constructor
  · intro h p hp hkey
    exact absurd (by simp [hkey.1, hkey.2]) (h p hp)
  · intro h p hp
    simp only [Bool.and_eq_true, beq_iff_eq]
    intro hkey
    exact h p hp hkey

theorem getFile_mem {s : DBState} {i : Nat} {f : FileRecord}
    (h : getFile s i = some f) : f ∈ s.files ∧ f.id = i := by
  unfold getFile at h
  refine ⟨List.mem_of_find?_eq_some h, ?_⟩
  have := List.find?_some h
  simpa using this

theorem getPermission_some_mem {s : DBState} {f u : Nat} {l : AccessLevel}
    (h : getPermission s f u = some l) :
    ∃ p ∈ s.perms, p.file_id = f ∧ p.user_id = u ∧ p.access_level = l := by
  unfold getPermission at h
  rw [Option.map_eq_some'] at h
  obtain ⟨p, hp, hl⟩ := h
  have hmem := List.mem_of_find?_eq_some hp
  have hpred := List.find?_some hp
  simp only [Bool.and_eq_true, beq_iff_eq] at hpred
  exact ⟨p, hmem, hpred.1, hpred.2, hl⟩

theorem otherOwner_spec {s : DBState} {fileId granteeId : Nat} :
    (s.perms.any (fun q =>
      q.file_id == fileId && q.user_id != granteeId &&
        q.access_level == AccessLevel.owner)) = true ↔
    ∃ q ∈ s.perms, q.file_id = fileId ∧ q.user_id ≠ granteeId ∧
      q.access_level = AccessLevel.owner := by
  rw [List.any_eq_true]
  constructor
  · intro ⟨q, hq, hcond⟩
    simp only [Bool.and_eq_true, beq_iff_eq, bne_iff_ne] at hcond
    exact ⟨q, hq, hcond.1.1, hcond.1.2, hcond.2⟩
  · intro ⟨q, hq, hc1, hc2, hc3⟩
    exact ⟨q, hq, by simp [hc1, hc2, hc3]⟩

theorem createFile_inv {s : DBState} (h : RepoInv s) (o : Nat)
    (fn fp : String) (sz : Int) (ct : String) (now : Nat) :
    RepoInv (createFile s o fn fp sz ct now).2 := by
  obtain ⟨h1, h2, h3, h4, h5⟩ := h
  unfold createFile
  split
  · exact ⟨h1, h2, h3, h4, h5⟩
  · split
    · exact ⟨h1, h2, h3, h4, h5⟩
    · refine ⟨?_, ?_, ?_, ?_, ?_, ?_⟩
      · exact List.pairwise_cons.mpr
          ⟨fun g hg => ne_of_gt (h5.1 g hg), h1⟩
      · exact List.pairwise_cons.mpr
          ⟨fun q hq => Or.inl (ne_of_gt (h5.2 q hq)), h2⟩
      · intro q hq
        rcases List.mem_cons.mp hq with rfl | hqt
        · exact ⟨_, List.mem_cons_self _ _, rfl⟩
        · obtain ⟨fl, hfl, hid⟩ := h3 q hqt
          exact ⟨fl, List.mem_cons_of_mem _ hfl, hid⟩
      · intro g hg
        rcases List.mem_cons.mp hg with rfl | hgt
        · exact ⟨_, List.mem_cons_self _ _, rfl, rfl⟩
        · obtain ⟨q, hq, hqid, hqlvl⟩ := h4 g hgt
          exact ⟨q, List.mem_cons_of_mem _ hq, hqid, hqlvl⟩
      · intro g hg
        rcases List.mem_cons.mp hg with rfl | hgt
        · exact Nat.lt_succ_self _
        · exact Nat.lt_succ_of_lt (h5.1 g hgt)
      · intro q hq
        rcases List.mem_cons.mp hq with rfl | hqt
        · exact Nat.lt_succ_self _
        · exact Nat.lt_succ_of_lt (h5.2 q hqt)

theorem upsertMap_file_id (fileId granteeId : Nat) (lvl : AccessLevel)
    (gb : Option Nat) (p : PermRecord) :
    (if p.file_id == fileId && p.user_id == granteeId then
      { p with access_level := lvl, granted_by := gb } else p).file_id =
      p.file_id := by
  split <;> rfl

theorem upsertMap_user_id (fileId granteeId : Nat) (lvl : AccessLevel)
    (gb : Option Nat) (p : PermRecord) :
    (if p.file_id == fileId && p.user_id == granteeId then
      { p with access_level := lvl, granted_by := gb } else p).user_id =
      p.user_id := by
  split <;> rfl

theorem upsertPermission_inv {s : DBState} (h : RepoInv s)
    (fileId granteeId : Nat) (level : String) (gb : Option Nat) (now : Nat) :
    RepoInv (upsertPermission s fileId granteeId level gb now).2 := by
  obtain ⟨h1, h2, h3, h4, h5⟩ := h
  unfold upsertPermission
  split
  next => exact ⟨h1, h2, h3, h4, h5⟩
  next lvl hparse =>
    split
    next => exact ⟨h1, h2, h3, h4, h5⟩
    next =>
      split
      next => exact ⟨h1, h2, h3, h4, h5⟩
      next =>
        split
        next => exact ⟨h1, h2, h3, h4, h5⟩
        next fl hgf =>
          split
          next cur hcur =>
            split
            next => exact ⟨h1, h2, h3, h4, h5⟩
            next hguard =>
              refine ⟨h1, ?_, ?_, ?_, h5.1, ?_⟩
              · refine List.Pairwise.map _ (fun a b hab => ?_) h2
                simp only [upsertMap_file_id, upsertMap_user_id]
                exact hab
              · intro q hq
                rw [List.mem_map] at hq
                obtain ⟨q₀, hq₀, rfl⟩ := hq
                obtain ⟨flq, hflq, hid⟩ := h3 q₀ hq₀
                refine ⟨flq, hflq, ?_⟩
                simp only [upsertMap_file_id]
                exact hid
              · intro flg hflg
                by_cases hfid : flg.id = fileId
                · by_cases hlvl : lvl = AccessLevel.owner
                  · obtain ⟨p₀, hp₀, hpf, hpu, hpl⟩ := getPermission_some_mem hcur
                    refine ⟨_, List.mem_map_of_mem _ hp₀, ?_, ?_⟩
                    · simp [hpf, hpu, hfid]
                    · simp [hpf, hpu, hlvl]
                  · by_cases hcuro : cur = AccessLevel.owner
                    · cases hany : (s.perms.any (fun q =>
                          q.file_id == fileId && q.user_id != granteeId &&
                            q.access_level == AccessLevel.owner)) with
                      | false =>
                        exact absurd (by simp [hcuro, hlvl, hany]) hguard
                      | true =>
                        obtain ⟨q, hq, hq1, hq2, hq3⟩ := otherOwner_spec.mp hany
                        refine ⟨_, List.mem_map_of_mem _ hq, ?_⟩
                        have hcond : (q.file_id == fileId &&
                            q.user_id == granteeId) = false := by
                          simp [hq2]
                        simp [hcond]
                        exact ⟨hq1.trans hfid.symm, hq3⟩
                    · obtain ⟨r, hr, hrid, hrlvl⟩ := h4 flg hflg
                      have hruser : r.user_id ≠ granteeId := by
                        intro heq
                        have hg := getPermission_of_mem h2 hr
                          (hrid.trans hfid) heq
                        rw [hcur] at hg
                        exact hcuro ((Option.some.inj hg).trans hrlvl)
                      refine ⟨_, List.mem_map_of_mem _ hr, ?_⟩
                      have hcond : (r.file_id == fileId &&
                          r.user_id == granteeId) = false := by
                        simp [hruser]
                      simp [hcond]
                      exact ⟨hrid, hrlvl⟩
                · obtain ⟨r, hr, hrid, hrlvl⟩ := h4 flg hflg
                  have hrf : r.file_id ≠ fileId := by
                    rw [hrid]; exact hfid
                  refine ⟨_, List.mem_map_of_mem _ hr, ?_⟩
                  have hcond : (r.file_id == fileId &&
                      r.user_id == granteeId) = false := by
                    simp [hrf]
                  simp [hcond]
                  exact ⟨hrid, hrlvl⟩
              · intro q hq
                rw [List.mem_map] at hq
                obtain ⟨q₀, hq₀, rfl⟩ := hq
                simp only [upsertMap_file_id]
                exact h5.2 q₀ hq₀
          next hnone =>
            have hkeys := getPermission_eq_none.mp hnone
            obtain ⟨hflmem, hflid⟩ := getFile_mem hgf
            refine ⟨h1, ?_, ?_, ?_, h5.1, ?_⟩
            · refine List.pairwise_cons.mpr ⟨fun q hq => ?_, h2⟩
              rcases Decidable.em (q.file_id = fileId) with hf | hf
              · exact Or.inr (fun hu => hkeys q hq ⟨hf, hu.symm⟩)
              · exact Or.inl (fun hff => hf hff.symm)
            · intro q hq
              rcases List.mem_cons.mp hq with rfl | hqt
              · exact ⟨fl, hflmem, hflid⟩
              · exact h3 q hqt
            · intro flg hflg
              obtain ⟨r, hr, hrid, hrlvl⟩ := h4 flg hflg
              exact ⟨r, List.mem_cons_of_mem _ hr, hrid, hrlvl⟩
            · intro q hq
              rcases List.mem_cons.mp hq with rfl | hqt
              · exact hflid ▸ h5.1 fl hflmem
              · exact h5.2 q hqt

theorem revokePermission_inv {s : DBState} (h : RepoInv s)
    (fileId granteeId : Nat) : RepoInv (revokePermission s fileId granteeId).2 := by
  obtain ⟨h1, h2, h3, h4, h5⟩ := h
  unfold revokePermission
  split
  next => exact ⟨h1, h2, h3, h4, h5⟩
  next lvl hcur =>
    split
    next => exact ⟨h1, h2, h3, h4, h5⟩
    next hguard =>
      refine ⟨h1, h2.filter _, ?_, ?_, h5.1, ?_⟩
      · intro q hq
        exact h3 q (List.mem_filter.mp hq).1
      · intro flg hflg
        obtain ⟨r, hr, hrid, hrlvl⟩ := h4 flg hflg
        by_cases hkey : r.file_id = fileId ∧ r.user_id = granteeId
        · have hgp := getPermission_of_mem h2 hr hkey.1 hkey.2
          rw [hcur] at hgp
          have hlvlo : lvl = AccessLevel.owner :=
            (Option.some.inj hgp).trans hrlvl
          cases hany : (s.perms.any (fun q =>
              q.file_id == fileId && q.user_id != granteeId &&
                q.access_level == AccessLevel.owner)) with
          | false =>
            exact absurd (by simp [hlvlo, hany]) hguard
          | true =>
            obtain ⟨q, hq, hq1, hq2, hq3⟩ := otherOwner_spec.mp hany
            refine ⟨q, List.mem_filter.mpr ⟨hq, by simp [hq2]⟩, ?_, hq3⟩
            rw [hq1, ← hkey.1, hrid]
        · refine ⟨r, List.mem_filter.mpr ⟨hr, ?_⟩, hrid, hrlvl⟩
          rcases Decidable.em (r.file_id = fileId) with hf | hf
          · have hu : r.user_id ≠ granteeId := fun hu => hkey ⟨hf, hu⟩
            simp [hu]
          · simp [hf]
      · intro q hq
        exact h5.2 q (List.mem_filter.mp hq).1

theorem deleteFileRepo_inv {s : DBState} (h : RepoInv s) (fileId : Nat) :
    RepoInv (deleteFileRepo s fileId).2 := by
  obtain ⟨h1, h2, h3, h4, h5⟩ := h
  unfold deleteFileRepo
  split
  next => exact ⟨h1, h2, h3, h4, h5⟩
  next fl hgf =>
    refine ⟨h1.filter _, h2.filter _, ?_, ?_, ?_, ?_⟩
    · intro q hq
      rw [List.mem_filter] at hq
      obtain ⟨fl₂, hfl₂, hid⟩ := h3 q hq.1
      refine ⟨fl₂, List.mem_filter.mpr ⟨hfl₂, ?_⟩, hid⟩
      have : q.file_id ≠ fileId := by simpa using hq.2
      simp [hid, this]
    · intro flg hflg
      rw [List.mem_filter] at hflg
      obtain ⟨r, hr, hrid, hrlvl⟩ := h4 flg hflg.1
      refine ⟨r, List.mem_filter.mpr ⟨hr, ?_⟩, hrid, hrlvl⟩
      have : flg.id ≠ fileId := by simpa using hflg.2
      simp [hrid, this]
    · intro g hg
      exact h5.1 g (List.mem_filter.mp hg).1
    · intro q hq
      exact h5.2 q (List.mem_filter.mp hq).1

theorem applyOp_inv {s : DBState} (h : RepoInv s) (op : Op) :
    RepoInv (applyOp s op) := by
  cases op with
  | create o fn fp sz ct now => exact createFile_inv h o fn fp sz ct now
  | grant f g l gb now => exact upsertPermission_inv h f g l gb now
  | revoke f g => exact revokePermission_inv h f g
  | delete f => exact deleteFileRepo_inv h f

theorem runOps_inv {s : DBState} (h : RepoInv s) (ops : List Op) :
    RepoInv (runOps s ops) := by
  induction ops generalizing s with
  | nil => exact h
  | cons op rest ih => exact ih (applyOp_inv h op)

instance (s : DBState) : Decidable (exactlyOneOwner s) := by
  unfold exactlyOneOwner; infer_instance

instance (s : DBState) : Decidable (uniqueFileIds s) := by
  unfold uniqueFileIds; infer_instance

instance (s : DBState) : Decidable (uniqueKeys s) := by
  unfold uniqueKeys; infer_instance

instance (s : DBState) : Decidable (permsHaveFile s) := by
  unfold permsHaveFile; infer_instance

instance (s : DBState) : Decidable (atLeastOneOwner s) := by
  unfold atLeastOneOwner; infer_instance

instance (s : DBState) : Decidable (idsFresh s) := by
  unfold idsFresh; infer_instance

instance (s : DBState) : Decidable (RepoInv s) := by
  unfold RepoInv; infer_instance

/-- Claim C1, as stated, is false on the code: co-ownership is permitted, so
from a healthy state an owner can grant `owner` to a second user, after which
the file exists and has two `owner`-level permission records, not exactly
one. -/
theorem C1_counterexample :
    RepoInv ⟨[1, 2], [], [], 0⟩ ∧
    (runOps ⟨[1, 2], [], [], 0⟩
      [Op.create 1 "a" "p" 1 "t" 0, Op.grant 0 2 "owner" (some 1) 1]).files ≠
        [] ∧
    ¬ exactlyOneOwner (runOps ⟨[1, 2], [], [], 0⟩
      [Op.create 1 "a" "p" 1 "t" 0, Op.grant 0 2 "owner" (some 1) 1]) := by
  decide

/-- Claim C1 (amended): for every file that exists, at every state reachable
by any sequence of create/grant/revoke/delete operations from a healthy
state, at least one permission record for that file has level `owner`. -/
theorem C1_at_least_one_owner (s : DBState) (h : RepoInv s) (ops : List Op) :
    atLeastOneOwner (runOps s ops) :=
  (runOps_inv h ops).2.2.2.1

/-- Witness for the amended claim C1 at a concrete healthy state and a
concrete operation sequence. -/
theorem C1_at_least_one_owner_witness :
    RepoInv ⟨[1, 2], [], [], 0⟩ ∧
      atLeastOneOwner (runOps ⟨[1, 2], [], [], 0⟩
        [Op.create 1 "a" "p" 1 "t" 0, Op.grant 0 2 "owner" (some 1) 1]) :=
  ⟨by decide, C1_at_least_one_owner ⟨[1, 2], [], [], 0⟩ (by decide)
    [Op.create 1 "a" "p" 1 "t" 0, Op.grant 0 2 "owner" (some 1) 1]⟩

/-- Claim C2: `authorize(u, f, L)` is true exactly when the effective level
reaches `L` under the total ordering `owner > write > read > none`, the
effective level is `none` exactly when no permission record exists for the
pair, and the ordering is strict between adjacent levels. -/
theorem C2_authorize_iff_effective (s : DBState) (u f : Nat)
    (L : AccessLevel) :
    (authorize s u f L = true ↔
      rank (some L) ≤ rank (effectiveLevel s u f)) ∧
    (effectiveLevel s u f = none ↔
      ∀ p ∈ s.perms, ¬(p.file_id = f ∧ p.user_id = u)) ∧
    rank (some AccessLevel.write) < rank (some AccessLevel.owner) ∧
    rank (some AccessLevel.read) < rank (some AccessLevel.write) ∧
    rank none < rank (some AccessLevel.read) := by
  refine ⟨?_, getPermission_eq_none, by decide, by decide, by decide⟩
  unfold authorize
  exact decide_eq_true_iff

/-- Claim C5: when the object-store write fails, the upload aborts with an
error and the metadata repository state after the call is exactly the state
before it — no file record and no permission record is created. -/
theorem C5_upload_abort_on_object_failure (s : DBState) (c : Nat)
    (fn fp : String) (sz : Int) (ct : String) (now : Nat) :
    (uploadFile s c fn fp sz ct false now).2 = s ∧
    ∃ e, (uploadFile s c fn fp sz ct false now).1 = Except.error e := by
  unfold uploadFile
  split
  · exact ⟨rfl, _, rfl⟩
  · split
    · exact ⟨rfl, _, rfl⟩
    · exact ⟨rfl, _, rfl⟩

/-- Claim C7: a caller holding no permission record on a file receives the
same `NotFound`-shaped rejection from the detail, delete and access
endpoints that a truly absent file identifier produces, so the two cases are
indistinguishable to the caller. -/
theorem C7_no_record_looks_absent (s : DBState) (c i : Nat) (objOk : Bool)
    (h : ∀ p ∈ s.perms, ¬(p.file_id = i ∧ p.user_id = c)) :
    getFileDetails s c i = Except.error ApiError.notFound ∧
    (deleteFileService s c i objOk).result = Except.error ApiError.notFound ∧
    accessLevelService s c i = Except.error ApiError.notFound ∧
    (∀ s₂ : DBState, getFile s₂ i = none →
      getFileDetails s₂ c i = Except.error ApiError.notFound ∧
      (deleteFileService s₂ c i objOk).result =
        Except.error ApiError.notFound ∧
      accessLevelService s₂ c i = Except.error ApiError.notFound) := by
  have heff : effectiveLevel s c i = none := getPermission_eq_none.mpr h
  have hauth : authorize s c i AccessLevel.read = false := by
    unfold authorize
    rw [heff]
    rfl
  refine ⟨?_, ?_, ?_, ?_⟩
  · unfold getFileDetails
    cases hgf : getFile s i with
    | none => rfl
    | some fl => simp [hauth]
  · unfold deleteFileService
    cases hgf : getFile s i with
    | none => rfl
    | some fl => simp [hauth]
  · unfold accessLevelService
    cases hgf : getFile s i with
    | none => rfl
    | some fl => simp [heff]
  · intro s₂ hgf₂
    refine ⟨?_, ?_, ?_⟩
    · unfold getFileDetails
      rw [hgf₂]
    · unfold deleteFileService
      rw [hgf₂]
    · unfold accessLevelService
      rw [hgf₂]

/-- Witness for claim C7: a concrete caller with no record on an existing
file, checked at that state. -/
theorem C7_no_record_looks_absent_witness :
    (∀ p ∈ (⟨[1, 2], [⟨0, 1, "a", "p", 1, "t", 0, 0⟩],
        [⟨0, 1, AccessLevel.owner, none, 0⟩], 1⟩ : DBState).perms,
      ¬(p.file_id = 0 ∧ p.user_id = 2)) ∧
    getFileDetails ⟨[1, 2], [⟨0, 1, "a", "p", 1, "t", 0, 0⟩],
      [⟨0, 1, AccessLevel.owner, none, 0⟩], 1⟩ 2 0 =
        Except.error ApiError.notFound :=
  ⟨by decide,
    (C7_no_record_looks_absent ⟨[1, 2], [⟨0, 1, "a", "p", 1, "t", 0, 0⟩],
      [⟨0, 1, AccessLevel.owner, none, 0⟩], 1⟩ 2 0 true (by decide)).1⟩

/-- Claim C3: `authorizeGrant` succeeds exactly when the granter holds an
`owner`-level record on the file, for every target level; a caller whose
effective level is `write`, `read` or `none` can never create, change or
revoke any permission record on the file — every grant or revoke attempt by
such a caller errors and leaves the repository unchanged. -/
theorem C3_only_owner_manages (s : DBState) (g f : Nat) (L : AccessLevel)
    (huniq : uniqueKeys s) :
    (authorizeGrant s g f L = true ↔
      effectiveLevel s g f = some AccessLevel.owner) ∧
    (effectiveLevel s g f ≠ some AccessLevel.owner →
      ∀ t : Nat, ∀ lvlStr : String, ∀ now : Nat,
        (grantAccess s g f t lvlStr now).2 = s ∧
        (∃ e, (grantAccess s g f t lvlStr now).1 = Except.error e) ∧
        (revokeAccess s g f t).2 = s ∧
        (∃ e, (revokeAccess s g f t).1 = Except.error e)) := by
  have hiff : authorizeGrant s g f L = true ↔
      effectiveLevel s g f = some AccessLevel.owner := by
    unfold authorizeGrant
    rw [List.any_eq_true]
    constructor
    · intro ⟨q, hq, hcond⟩
      simp only [Bool.and_eq_true, beq_iff_eq] at hcond
      have hgp := getPermission_of_mem huniq hq hcond.1.1 hcond.1.2
      unfold effectiveLevel
      rw [hgp, hcond.2]
    · intro hgp
      obtain ⟨p, hp, h1, h2, h3⟩ := getPermission_some_mem hgp
      exact ⟨p, hp, by simp [h1, h2, h3]⟩
  refine ⟨hiff, ?_⟩
  intro hno t lvlStr now
  have hgf_false : ∀ L' : AccessLevel, authorizeGrant s g f L' = false := by
    intro L'
    have heq : authorizeGrant s g f L' = authorizeGrant s g f L := rfl
    rw [heq]
    cases hag : authorizeGrant s g f L with
    | false => rfl
    | true => exact absurd (hiff.mp hag) hno
  have hgrant : (grantAccess s g f t lvlStr now).2 = s ∧
      ∃ e, (grantAccess s g f t lvlStr now).1 = Except.error e := by
    unfold grantAccess
    cases hfil : getFile s f with
    | none => exact ⟨rfl, _, rfl⟩
    | some fl =>
      cases hpl : parseLevel lvlStr with
      | none => exact ⟨rfl, _, rfl⟩
      | some lvl =>
        cases har : authorize s g f AccessLevel.read with
        | false => exact ⟨rfl, _, rfl⟩
        | true =>
          refine ⟨?_, ApiError.forbidden, ?_⟩ <;>
            simp [hgf_false lvl]
  have hrev : (revokeAccess s g f t).2 = s ∧
      ∃ e, (revokeAccess s g f t).1 = Except.error e := by
    unfold revokeAccess
    cases hfil : getFile s f with
    | none => exact ⟨rfl, _, rfl⟩
    | some fl =>
      cases har : authorize s g f AccessLevel.read with
      | false => exact ⟨rfl, _, rfl⟩
      | true =>
        refine ⟨?_, ApiError.forbidden, ?_⟩ <;>
          simp [hgf_false AccessLevel.read]
  exact ⟨hgrant.1, hgrant.2, hrev.1, hrev.2⟩

/-- Witness for claim C3 at a concrete state where user 2 holds only a
`read` record on file 0. -/
theorem C3_only_owner_manages_witness :
    uniqueKeys ⟨[1, 2, 3], [⟨0, 1, "a", "p", 1, "t", 0, 0⟩],
      [⟨0, 1, AccessLevel.owner, none, 0⟩,
        ⟨0, 2, AccessLevel.read, some 1, 0⟩], 1⟩ ∧
    (authorizeGrant ⟨[1, 2, 3], [⟨0, 1, "a", "p", 1, "t", 0, 0⟩],
      [⟨0, 1, AccessLevel.owner, none, 0⟩,
        ⟨0, 2, AccessLevel.read, some 1, 0⟩], 1⟩ 2 0 AccessLevel.read = true ↔
      effectiveLevel ⟨[1, 2, 3], [⟨0, 1, "a", "p", 1, "t", 0, 0⟩],
        [⟨0, 1, AccessLevel.owner, none, 0⟩,
          ⟨0, 2, AccessLevel.read, some 1, 0⟩], 1⟩ 2 0 =
        some AccessLevel.owner) :=
  ⟨by decide,
    (C3_only_owner_manages ⟨[1, 2, 3], [⟨0, 1, "a", "p", 1, "t", 0, 0⟩],
      [⟨0, 1, AccessLevel.owner, none, 0⟩,
        ⟨0, 2, AccessLevel.read, some 1, 0⟩], 1⟩ 2 0 AccessLevel.read
      (by decide)).1⟩

/-- Claim C4: when user u holds the only `owner`-level record of an existing
file, an `upsertPermission` that would demote that grant fails with
`Conflict` and leaves the repository exactly as it was, and so does a
`revokePermission` that would remove it. -/
theorem C4_sole_owner_protected (s : DBState) (fileId u : Nat)
    (level : String) (gb : Option Nat) (now : Nat)
    (hown : getPermission s fileId u = some AccessLevel.owner)
    (hsole : ∀ p ∈ s.perms, p.file_id = fileId →
      p.access_level = AccessLevel.owner → p.user_id = u)
    (hlvl : level = "read" ∨ level = "write")
    (humem : s.users.contains u = true)
    (hgb : gb.any (fun g => !(s.users.contains g)) = false)
    (hfile : (getFile s fileId).isSome = true) :
    (upsertPermission s fileId u level gb now).1 =
      Except.error RepoError.conflict ∧
    (upsertPermission s fileId u level gb now).2 = s ∧
    (revokePermission s fileId u).1 = Except.error RepoError.conflict ∧
    (revokePermission s fileId u).2 = s := by
  have hoo : (s.perms.any (fun q =>
      q.file_id == fileId && q.user_id != u &&
        q.access_level == AccessLevel.owner)) = false := by
    rw [List.any_eq_false]
    intro q hq hcond
    simp only [Bool.and_eq_true, beq_iff_eq, bne_iff_ne] at hcond
    exact hcond.1.2 (hsole q hq hcond.1.1 hcond.2)
  obtain ⟨lvl, hp, hlno⟩ : ∃ lvl, parseLevel level = some lvl ∧
      (lvl != AccessLevel.owner) = true := by
    rcases hlvl with rfl | rfl
    · exact ⟨AccessLevel.read, rfl, rfl⟩
    · exact ⟨AccessLevel.write, rfl, rfl⟩
  obtain ⟨fl, hfl⟩ := Option.isSome_iff_exists.mp hfile
  refine ⟨?_, ?_, ?_, ?_⟩
  · unfold upsertPermission
    rw [hp, humem, hgb, hfl, hown]
    dsimp only
    rw [hlno, hoo]
    rfl
  · unfold upsertPermission
    rw [hp, humem, hgb, hfl, hown]
    dsimp only
    rw [hlno, hoo]
    rfl
  · unfold revokePermission
    rw [hown]
    dsimp only
    rw [hoo]
    rfl
  · unfold revokePermission
    rw [hown]
    dsimp only
    rw [hoo]
    rfl

/-- Witness for claim C4 at a concrete state whose single file has user 1 as
its sole owner. -/
theorem C4_sole_owner_protected_witness :
    (getPermission ⟨[1, 2], [⟨0, 1, "a", "p", 1, "t", 0, 0⟩],
        [⟨0, 1, AccessLevel.owner, none, 0⟩], 1⟩ 0 1 =
      some AccessLevel.owner) ∧
    (upsertPermission ⟨[1, 2], [⟨0, 1, "a", "p", 1, "t", 0, 0⟩],
        [⟨0, 1, AccessLevel.owner, none, 0⟩], 1⟩ 0 1 "read" (some 1) 5).1 =
      Except.error RepoError.conflict :=
  ⟨by decide,
    (C4_sole_owner_protected ⟨[1, 2], [⟨0, 1, "a", "p", 1, "t", 0, 0⟩],
        [⟨0, 1, AccessLevel.owner, none, 0⟩], 1⟩ 0 1 "read" (some 1) 5
      (by decide) (by decide) (Or.inl rfl) (by decide) (by decide)
      (by decide)).1⟩

/-- Claim C6: after every successful delete call the file is gone from the
metadata first — `getFile` answers `NotFound`, no user's
`listAccessibleFiles` contains it, and every permission record of the file
is cascaded away — and neither the resulting metadata state nor the caller's
result depends on whether the subsequent object-store deletion succeeds. -/
theorem C6_delete_metadata_first (s : DBState) (c fid : Nat) (objOk : Bool)
    (hok : (deleteFileService s c fid objOk).result = Except.ok ()) :
    getFile (deleteFileService s c fid objOk).state fid = none ∧
    (∀ u : Nat, ∀ x ∈ listAccessibleFiles
        (deleteFileService s c fid objOk).state u, x.1.id ≠ fid) ∧
    (∀ p ∈ (deleteFileService s c fid objOk).state.perms, p.file_id ≠ fid) ∧
    (deleteFileService s c fid true).state =
      (deleteFileService s c fid false).state ∧
    (deleteFileService s c fid true).result =
      (deleteFileService s c fid false).result := by
  unfold deleteFileService at hok
  cases hgf : getFile s fid with
  | none => rw [hgf] at hok; simp at hok
  | some fl =>
    rw [hgf] at hok
    cases har : authorize s c fid AccessLevel.read with
    | false => rw [har] at hok; simp at hok
    | true =>
      rw [har] at hok
      cases hao : authorize s c fid AccessLevel.owner with
      | false => rw [hao] at hok; simp at hok
      | true =>
        have hdel : deleteFileRepo s fid =
            (Except.ok (),
              { s with files := s.files.filter (fun f => !(f.id == fid)),
                       perms := s.perms.filter (fun p =>
                         !(p.file_id == fid)) }) := by
          unfold deleteFileRepo
          rw [hgf]
        have hsvc : ∀ b : Bool, deleteFileService s c fid b =
            ⟨Except.ok (),
              { s with files := s.files.filter (fun f => !(f.id == fid)),
                       perms := s.perms.filter (fun p =>
                         !(p.file_id == fid)) }, !b⟩ := by
          intro b
          unfold deleteFileService
          rw [hgf, har, hao, hdel]
          rfl
        rw [hsvc objOk, hsvc true, hsvc false]
        dsimp only
        refine ⟨?_, ?_, ?_, rfl, rfl⟩
        · unfold getFile
          rw [List.find?_eq_none]
          intro f hf
          simp only [List.mem_filter] at hf
          simpa using hf.2
        · intro u x hx
          unfold listAccessibleFiles at hx
          rw [List.mem_insertionSort, List.mem_filterMap] at hx
          obtain ⟨f, hf, hmap⟩ := hx
          rw [Option.map_eq_some'] at hmap
          obtain ⟨l, hgp, heq⟩ := hmap
          subst heq
          simp only [List.mem_filter] at hf
          simpa using hf.2
        · intro p hp
          simp only [List.mem_filter] at hp
          simpa using hp.2

/-- Witness for claim C6: the sole owner deletes their file at a concrete
state; the call succeeds and the file is gone from the metadata. -/
theorem C6_delete_metadata_first_witness :
    (deleteFileService ⟨[1, 2], [⟨0, 1, "a", "p", 1, "t", 0, 0⟩],
        [⟨0, 1, AccessLevel.owner, none, 0⟩], 1⟩ 1 0 true).result =
      Except.ok () ∧
    getFile (deleteFileService ⟨[1, 2], [⟨0, 1, "a", "p", 1, "t", 0, 0⟩],
        [⟨0, 1, AccessLevel.owner, none, 0⟩], 1⟩ 1 0 true).state 0 = none :=
  ⟨rfl,
    (C6_delete_metadata_first ⟨[1, 2], [⟨0, 1, "a", "p", 1, "t", 0, 0⟩],
      [⟨0, 1, AccessLevel.owner, none, 0⟩], 1⟩ 1 0 true rfl).1⟩

theorem upsert_replace {s : DBState} (h2 : uniqueKeys s)
    {fileId granteeId : Nat} {level : String} {gb : Option Nat} {now : Nat}
    {lvl : AccessLevel} (hl : parseLevel level = some lvl)
    {p₀ : PermRecord} (hp₀ : p₀ ∈ s.perms) (hpf : p₀.file_id = fileId)
    (hpu : p₀.user_id = granteeId)
    (hok : (upsertPermission s fileId granteeId level gb now).1 =
      Except.ok ()) :
    (upsertPermission s fileId granteeId level gb now).2.perms =
      s.perms.map (fun p =>
        if p.file_id == fileId && p.user_id == granteeId then
          { p with access_level := lvl, granted_by := gb } else p) := by
  have hcur : getPermission s fileId granteeId = some p₀.access_level :=
    getPermission_of_mem h2 hp₀ hpf hpu
  cases hc1 : s.users.contains granteeId with
  | false =>
    have hbad : (upsertPermission s fileId granteeId level gb now).1 =
        Except.error RepoError.notFound := by
      unfold upsertPermission
      rw [hl, hc1]
      rfl
    rw [hbad] at hok
    simp at hok
  | true =>
  cases hc2 : gb.any (fun g => !(s.users.contains g)) with
  | true =>
    have hbad : (upsertPermission s fileId granteeId level gb now).1 =
        Except.error RepoError.notFound := by
      unfold upsertPermission
      rw [hl, hc1, hc2]
      rfl
    rw [hbad] at hok
    simp at hok
  | false =>
  cases hgf : getFile s fileId with
  | none =>
    have hbad : (upsertPermission s fileId granteeId level gb now).1 =
        Except.error RepoError.notFound := by
      unfold upsertPermission
      rw [hl, hc1, hc2, hgf]
      rfl
    rw [hbad] at hok
    simp at hok
  | some fl =>
  cases hguard : (p₀.access_level == AccessLevel.owner &&
      lvl != AccessLevel.owner && !(s.perms.any (fun q =>
        q.file_id == fileId && q.user_id != granteeId &&
          q.access_level == AccessLevel.owner))) with
  | true =>
    have hbad : (upsertPermission s fileId granteeId level gb now).1 =
        Except.error RepoError.conflict := by
      unfold upsertPermission
      rw [hl, hc1, hc2, hgf, hcur]
      dsimp only
      rw [hguard]
      rfl
    rw [hbad] at hok
    simp at hok
  | false =>
    unfold upsertPermission
    rw [hl, hc1, hc2, hgf, hcur]
    dsimp only
    rw [hguard]
    rfl

/-- Claim C8: at every reachable state, at most one permission record is
keyed by a given `(file, grantee)` pair, and a successful grant to a grantee
who already holds a record on the file replaces that record's level — the
row count is unchanged and the stored level becomes the granted one. -/
theorem C8_unique_composite_key (s : DBState) (h : RepoInv s)
    (fileId granteeId : Nat) (level : String) (gb : Option Nat) (now : Nat)
    (lvl cur : AccessLevel) (hl : parseLevel level = some lvl)
    (hex : getPermission s fileId granteeId = some cur)
    (hok : (upsertPermission s fileId granteeId level gb now).1 =
      Except.ok ()) :
    (∀ ops : List Op, uniqueKeys (runOps s ops)) ∧
    (upsertPermission s fileId granteeId level gb now).2.perms.length =
      s.perms.length ∧
    getPermission (upsertPermission s fileId granteeId level gb now).2
      fileId granteeId = some lvl := by
  obtain ⟨p₀, hp₀, hpf, hpu, hpl⟩ := getPermission_some_mem hex
  have hperms := upsert_replace h.2.1 hl hp₀ hpf hpu hok
  refine ⟨fun ops => (runOps_inv h ops).2.1, ?_, ?_⟩
  · rw [hperms, List.length_map]
  · unfold getPermission
    rw [hperms]
    have huniq' : (s.perms.map (fun p =>
        if p.file_id == fileId && p.user_id == granteeId then
          { p with access_level := lvl, granted_by := gb } else p)).Pairwise
        (fun a b => a.file_id ≠ b.file_id ∨ a.user_id ≠ b.user_id) := by
      refine List.Pairwise.map _ (fun a b hab => ?_) h.2.1
      simpa only [upsertMap_file_id, upsertMap_user_id] using hab
    have hmem := List.mem_map_of_mem (fun p =>
        if p.file_id == fileId && p.user_id == granteeId then
          { p with access_level := lvl, granted_by := gb } else p) hp₀
    have hgp₀ : (fun p =>
        if p.file_id == fileId && p.user_id == granteeId then
          { p with access_level := lvl, granted_by := gb } else p) p₀ =
        { p₀ with access_level := lvl, granted_by := gb } := by
      simp [hpf, hpu]
    rw [hgp₀] at hmem
    rw [find?_key_unique huniq' hmem hpf hpu]
    rfl

/-- Witness for claim C8: granting `write` to user 2, who already holds
`read` on file 0, succeeds, keeps the row count, and stores the new level. -/
theorem C8_unique_composite_key_witness :
    RepoInv ⟨[1, 2], [⟨0, 1, "a", "p", 1, "t", 0, 0⟩],
      [⟨0, 1, AccessLevel.owner, none, 0⟩,
        ⟨0, 2, AccessLevel.read, some 1, 0⟩], 1⟩ ∧
    getPermission (upsertPermission ⟨[1, 2], [⟨0, 1, "a", "p", 1, "t", 0, 0⟩],
      [⟨0, 1, AccessLevel.owner, none, 0⟩,
        ⟨0, 2, AccessLevel.read, some 1, 0⟩], 1⟩ 0 2 "write" (some 1) 7).2
      0 2 = some AccessLevel.write :=
  ⟨by decide,
    (C8_unique_composite_key ⟨[1, 2], [⟨0, 1, "a", "p", 1, "t", 0, 0⟩],
      [⟨0, 1, AccessLevel.owner, none, 0⟩,
        ⟨0, 2, AccessLevel.read, some 1, 0⟩], 1⟩ (by decide) 0 2 "write"
      (some 1) 7 AccessLevel.write AccessLevel.read rfl (by decide)
      rfl).2.2⟩

/-- Claim C10: a user can view a permission row of a file iff the row's
grantee is that user, or the user holds `owner` or `write` on the file; a
user holding only `read` cannot see the rows of other users on the same
file. -/
theorem C10_view_permission_policy (s : DBState) (u : Nat) (p : PermRecord)
    (huniq : uniqueKeys s) :
    (canViewPermission s u p = true ↔
      (p.user_id = u ∨
        effectiveLevel s u p.file_id = some AccessLevel.owner ∨
        effectiveLevel s u p.file_id = some AccessLevel.write)) ∧
    (effectiveLevel s u p.file_id = some AccessLevel.read → p.user_id ≠ u →
      canViewPermission s u p = false) := by
  have hany_iff : (s.perms.any (fun q =>
      q.file_id == p.file_id && q.user_id == u &&
        (q.access_level == AccessLevel.owner ||
          q.access_level == AccessLevel.write))) = true ↔
      (effectiveLevel s u p.file_id = some AccessLevel.owner ∨
        effectiveLevel s u p.file_id = some AccessLevel.write) := by
    rw [List.any_eq_true]
    constructor
    · intro ⟨q, hq, hcond⟩
      simp only [Bool.and_eq_true, Bool.or_eq_true, beq_iff_eq] at hcond
      have hgp := getPermission_of_mem huniq hq hcond.1.1 hcond.1.2
      unfold effectiveLevel
      rw [hgp]
      rcases hcond.2 with ho | hw
      · exact Or.inl (by rw [ho])
      · exact Or.inr (by rw [hw])
    · intro hcase
      rcases hcase with ho | hw
      · obtain ⟨q, hq, h1, h2, h3⟩ := getPermission_some_mem ho
        exact ⟨q, hq, by simp [h1, h2, h3]⟩
      · obtain ⟨q, hq, h1, h2, h3⟩ := getPermission_some_mem hw
        exact ⟨q, hq, by simp [h1, h2, h3]⟩
  constructor
  · unfold canViewPermission
    rw [Bool.or_eq_true, hany_iff, beq_iff_eq]
  · intro hread hneq
    unfold canViewPermission
    have h1 : (p.user_id == u) = false := by simp [hneq]
    have h2 : (s.perms.any (fun q =>
        q.file_id == p.file_id && q.user_id == u &&
          (q.access_level == AccessLevel.owner ||
            q.access_level == AccessLevel.write))) = false := by
      cases hany : (s.perms.any (fun q =>
          q.file_id == p.file_id && q.user_id == u &&
            (q.access_level == AccessLevel.owner ||
              q.access_level == AccessLevel.write))) with
      | false => rfl
      | true =>
        rcases hany_iff.mp hany with ho | hw
        · rw [hread] at ho
          exact absurd (Option.some.inj ho) (by decide)
        · rw [hread] at hw
          exact absurd (Option.some.inj hw) (by decide)
    rw [h1, h2]
    rfl

/-- Witness for claim C10: at a concrete state, the `read`-holder user 2
cannot view user 1's owner record on file 0. -/
theorem C10_view_permission_policy_witness :
    uniqueKeys ⟨[1, 2], [⟨0, 1, "a", "p", 1, "t", 0, 0⟩],
      [⟨0, 1, AccessLevel.owner, none, 0⟩,
        ⟨0, 2, AccessLevel.read, some 1, 0⟩], 1⟩ ∧
    (effectiveLevel ⟨[1, 2], [⟨0, 1, "a", "p", 1, "t", 0, 0⟩],
        [⟨0, 1, AccessLevel.owner, none, 0⟩,
          ⟨0, 2, AccessLevel.read, some 1, 0⟩], 1⟩ 2 0 =
        some AccessLevel.read) ∧
    canViewPermission ⟨[1, 2], [⟨0, 1, "a", "p", 1, "t", 0, 0⟩],
      [⟨0, 1, AccessLevel.owner, none, 0⟩,
        ⟨0, 2, AccessLevel.read, some 1, 0⟩], 1⟩ 2
      ⟨0, 1, AccessLevel.owner, none, 0⟩ = false :=
  ⟨by decide, by decide,
    (C10_view_permission_policy ⟨[1, 2], [⟨0, 1, "a", "p", 1, "t", 0, 0⟩],
      [⟨0, 1, AccessLevel.owner, none, 0⟩,
        ⟨0, 2, AccessLevel.read, some 1, 0⟩], 1⟩ 2
      ⟨0, 1, AccessLevel.owner, none, 0⟩ (by decide)).2 (by decide)
      (by decide)⟩

instance (o : Option Nat) (l : List Nat) :
    Decidable (∀ g, o = some g → g ∈ l) :=
  match o with
  | none => isTrue (fun _ h => by cases h)
  | some a => decidable_of_iff (a ∈ l)
      ⟨fun h g hg => (Option.some.inj hg) ▸ h, fun h => h a rfl⟩

/-- The schema's three foreign keys on `file_permissions` (`file_id` into
`files`, `user_id` and `granted_by` into `auth.users`) and the one on
`files` (`user_id` into `auth.users`): no row dangles. -/
def refIntegrity (s : DBState) : Prop :=
  (∀ p ∈ s.perms,
    (∃ f ∈ s.files, f.id = p.file_id) ∧ p.user_id ∈ s.users ∧
      (∀ g, p.granted_by = some g → g ∈ s.users)) ∧
  (∀ f ∈ s.files, f.user_id ∈ s.users)

instance (s : DBState) : Decidable (refIntegrity s) := by
  unfold refIntegrity; infer_instance

theorem refIntegrity_createFile {s : DBState} (h : refIntegrity s) (o : Nat)
    (fn fp : String) (sz : Int) (ct : String) (now : Nat) :
    refIntegrity (createFile s o fn fp sz ct now).2 := by
  unfold createFile
  split
  next => exact h
  next hc =>
    split
    next => exact h
    next =>
      have ho : o ∈ s.users := by
        rcases hco : s.users.contains o with _ | _
        · rw [hco] at hc; simp at hc
        · exact List.elem_iff.mp hco
      constructor
      · intro q hq
        rcases List.mem_cons.mp hq with rfl | hqt
        · exact ⟨⟨_, List.mem_cons_self _ _, rfl⟩, ho, fun _ hg => by cases hg⟩
        · obtain ⟨⟨fl, hfl, hid⟩, hu, hgb⟩ := h.1 q hqt
          exact ⟨⟨fl, List.mem_cons_of_mem _ hfl, hid⟩, hu, hgb⟩
      · intro fl hfl
        rcases List.mem_cons.mp hfl with rfl | hft
        · exact ho
        · exact h.2 fl hft

theorem refIntegrity_upsert {s : DBState} (h : refIntegrity s)
    (fileId granteeId : Nat) (level : String) (gb : Option Nat) (now : Nat) :
    refIntegrity (upsertPermission s fileId granteeId level gb now).2 := by
  unfold upsertPermission
  split
  next => exact h
  next lvl hl =>
    split
    next => exact h
    next hc1 =>
      split
      next => exact h
      next hc2 =>
        have hgrantee : granteeId ∈ s.users := by
          rcases hco : s.users.contains granteeId with _ | _
          · rw [hco] at hc1; simp at hc1
          · exact List.elem_iff.mp hco
        have hgb : ∀ g, gb = some g → g ∈ s.users := by
          intro g hg
          subst hg
          simp only [Option.any_some] at hc2
          rcases hco : s.users.contains g with _ | _
          · rw [hco] at hc2; simp at hc2
          · exact List.elem_iff.mp hco
        split
        next => exact h
        next fl hgf =>
          have hflmem : fl ∈ s.files ∧ fl.id = fileId := getFile_mem hgf
          split
          next cur hcur =>
            split
            next => exact h
            next =>
              constructor
              · intro q hq
                rw [List.mem_map] at hq
                obtain ⟨q₀, hq₀, rfl⟩ := hq
                obtain ⟨⟨f₂, hf₂, hid⟩, hu, hgb₀⟩ := h.1 q₀ hq₀
                by_cases hkey :
                    (q₀.file_id == fileId && q₀.user_id == granteeId) = true
                · refine ⟨⟨f₂, hf₂, ?_⟩, ?_, ?_⟩ <;> simp [hkey]
                  · exact hid
                  · exact hu
                  · exact hgb
                · refine ⟨⟨f₂, hf₂, ?_⟩, ?_, ?_⟩ <;>
                    simp [Bool.eq_false_iff.mpr hkey]
                  · exact hid
                  · exact hu
                  · exact hgb₀
              · exact h.2
          next hnone =>
            constructor
            · intro q hq
              rcases List.mem_cons.mp hq with rfl | hqt
              · exact ⟨⟨fl, hflmem.1, hflmem.2⟩, hgrantee, hgb⟩
              · exact h.1 q hqt
            · exact h.2

theorem refIntegrity_revoke {s : DBState} (h : refIntegrity s)
    (fileId granteeId : Nat) :
    refIntegrity (revokePermission s fileId granteeId).2 := by
  unfold revokePermission
  split
  next => exact h
  next lvl hcur =>
    split
    next => exact h
    next =>
      constructor
      · intro q hq
        exact h.1 q (List.mem_filter.mp hq).1
      · exact h.2

theorem refIntegrity_deleteFile {s : DBState} (h : refIntegrity s)
    (fileId : Nat) : refIntegrity (deleteFileRepo s fileId).2 := by
  unfold deleteFileRepo
  split
  next => exact h
  next fl hgf =>
    constructor
    · intro q hq
      rw [List.mem_filter] at hq
      obtain ⟨⟨f₂, hf₂, hid⟩, hu, hgb⟩ := h.1 q hq.1
      refine ⟨⟨f₂, List.mem_filter.mpr ⟨hf₂, ?_⟩, hid⟩, hu, hgb⟩
      have : q.file_id ≠ fileId := by simpa using hq.2
      simp [hid, this]
    · intro f₂ hf₂
      exact h.2 f₂ (List.mem_filter.mp hf₂).1

theorem refIntegrity_applyOp {s : DBState} (h : refIntegrity s) (op : Op) :
    refIntegrity (applyOp s op) := by
  cases op with
  | create o fn fp sz ct now => exact refIntegrity_createFile h o fn fp sz ct now
  | grant f g l gb now => exact refIntegrity_upsert h f g l gb now
  | revoke f g => exact refIntegrity_revoke h f g
  | delete f => exact refIntegrity_deleteFile h f

theorem refIntegrity_runOps {s : DBState} (h : refIntegrity s)
    (ops : List Op) : refIntegrity (runOps s ops) := by
  induction ops generalizing s with
  | nil => exact h
  | cons op rest ih => exact ih (refIntegrity_applyOp h op)

/-- Claim C9: permission rows never dangle — deleting a file cascades away
every permission row carrying its id; a successful user deletion removes
every file owned by the user and every permission row whose grantee is the
user; and referential integrity holds after either deletion and along every
sequence of create/grant/revoke/delete operations. -/
theorem C9_referential_integrity (s : DBState) (h : refIntegrity s)
    (fid uid : Nat) :
    ((deleteFileRepo s fid).1 = Except.ok () →
      (∀ p ∈ (deleteFileRepo s fid).2.perms, p.file_id ≠ fid) ∧
      refIntegrity (deleteFileRepo s fid).2) ∧
    ((deleteUser s uid).1 = Except.ok () →
      (∀ f ∈ (deleteUser s uid).2.files, f.user_id ≠ uid) ∧
      (∀ p ∈ (deleteUser s uid).2.perms, p.user_id ≠ uid) ∧
      refIntegrity (deleteUser s uid).2) ∧
    (∀ ops : List Op, refIntegrity (runOps s ops)) := by
  refine ⟨?_, ?_, fun ops => refIntegrity_runOps h ops⟩
  · intro hok
    cases hgf : getFile s fid with
    | none =>
      have hbad : (deleteFileRepo s fid).1 = Except.error RepoError.notFound := by
        unfold deleteFileRepo
        rw [hgf]
      rw [hbad] at hok
      simp at hok
    | some fl =>
      have hval : deleteFileRepo s fid =
          (Except.ok (),
            { s with files := s.files.filter (fun f => !(f.id == fid)),
                     perms := s.perms.filter (fun p =>
                       !(p.file_id == fid)) }) := by
        unfold deleteFileRepo
        rw [hgf]
      have hri := refIntegrity_deleteFile h fid
      rw [hval] at hri ⊢
      dsimp only
      refine ⟨?_, hri⟩
      intro p hp
      simp only [List.mem_filter] at hp
      simpa using hp.2
  · intro hok
    cases hcu : s.users.contains uid with
    | false =>
      have hbad : (deleteUser s uid).1 = Except.error RepoError.notFound := by
        unfold deleteUser
        rw [hcu]
        rfl
      rw [hbad] at hok
      simp at hok
    | true =>
      cases hany : (s.perms.filter (fun p =>
          !(p.user_id == uid) &&
            !(s.files.any (fun f =>
              f.id == p.file_id && f.user_id == uid)))).any
            (fun p => p.granted_by == some uid) with
      | true =>
        have hbad : (deleteUser s uid).1 = Except.error RepoError.conflict := by
          unfold deleteUser
          rw [hcu, hany]
          rfl
        rw [hbad] at hok
        simp at hok
      | false =>
        have hval : deleteUser s uid =
            (Except.ok (),
              { s with users := s.users.filter (fun u => !(u == uid)),
                       files := s.files.filter (fun f => !(f.user_id == uid)),
                       perms := s.perms.filter (fun p =>
                         !(p.user_id == uid) &&
                           !(s.files.any (fun f =>
                             f.id == p.file_id && f.user_id == uid))) }) := by
          unfold deleteUser
          rw [hcu, hany]
          rfl
        rw [hval]
        dsimp only
        have hnogb : ∀ p ∈ s.perms.filter (fun p =>
            !(p.user_id == uid) &&
              !(s.files.any (fun f =>
                f.id == p.file_id && f.user_id == uid))),
            p.granted_by ≠ some uid := by
          intro p hp
          have := List.any_eq_false.mp hany p hp
          simpa using this
        refine ⟨?_, ?_, ?_, ?_⟩
        · intro f hf
          simp only [List.mem_filter] at hf
          simpa using hf.2
        · intro p hp
          simp only [List.mem_filter, Bool.and_eq_true] at hp
          simpa using hp.2.1
        · intro p hp
          have hp' := hp
          simp only [List.mem_filter, Bool.and_eq_true] at hp
          obtain ⟨hpm, hpu, hpfiles⟩ := hp
          obtain ⟨⟨f₂, hf₂, hid⟩, hu, hgb⟩ := h.1 p hpm
          have hpu' : p.user_id ≠ uid := by simpa using hpu
          have hf₂u : f₂.user_id ≠ uid := by
            intro heq
            have : s.files.any (fun f =>
                f.id == p.file_id && f.user_id == uid) = true :=
              List.any_eq_true.mpr ⟨f₂, hf₂, by simp [hid, heq]⟩
            rw [this] at hpfiles
            simp at hpfiles
          refine ⟨⟨f₂, List.mem_filter.mpr ⟨hf₂, by simp [hf₂u]⟩, hid⟩,
            List.mem_filter.mpr ⟨hu, by simp [hpu']⟩, ?_⟩
          intro g hg
          have hgne : g ≠ uid := by
            intro heq
            exact hnogb p hp' (heq ▸ hg)
          exact List.mem_filter.mpr ⟨hgb g hg, by simp [hgne]⟩
        · intro f hf
          simp only [List.mem_filter] at hf
          have hfu : f.user_id ≠ uid := by simpa using hf.2
          exact List.mem_filter.mpr ⟨h.2 f hf.1, by simp [hfu]⟩

/-- Witness for claim C9: deleting the only file of a concrete state
leaves no permission row carrying its id. -/
theorem C9_referential_integrity_witness :
    refIntegrity ⟨[1, 2], [⟨0, 1, "a", "p", 1, "t", 0, 0⟩],
      [⟨0, 1, AccessLevel.owner, none, 0⟩,
        ⟨0, 2, AccessLevel.read, some 1, 0⟩], 1⟩ ∧
    (∀ p ∈ (deleteFileRepo ⟨[1, 2], [⟨0, 1, "a", "p", 1, "t", 0, 0⟩],
      [⟨0, 1, AccessLevel.owner, none, 0⟩,
        ⟨0, 2, AccessLevel.read, some 1, 0⟩], 1⟩ 0).2.perms,
      p.file_id ≠ 0) :=
  ⟨by decide,
    ((C9_referential_integrity ⟨[1, 2], [⟨0, 1, "a", "p", 1, "t", 0, 0⟩],
      [⟨0, 1, AccessLevel.owner, none, 0⟩,
        ⟨0, 2, AccessLevel.read, some 1, 0⟩], 1⟩ (by decide) 0 2).1 rfl).1⟩
